import Mathlib

/-!
Verification of the mutable-buffer columnar chunk core of influxdb_iox.

This development shallowly embeds the code of
`mutable_buffer/src/column.rs`, `mutable_buffer/src/chunk.rs`,
`arrow_util/src/dictionary.rs` and `query/src/pruning.rs` and proves
properties of it.  Machine integers are modelled as `Nat`/`Int` (the code
paths verified here never overflow them), `f64` is modelled as an abstract
numeric value together with a NaN flag (the claims only involve NaN and
small integral doubles), `Vec<T>` as `List T`, validity bitsets as
`List Bool`, and the hash-based string dictionary extensionally, by its
lookup semantics (find the first stored string equal to the probe).
Rust panics (assertion failures, flatbuffer `expect`s, out-of-range
indexing of a resized vector is benign here, see comments) are modelled
by a dedicated `panicked` result where they can fire.
-/

namespace Iox

/-- Field types of `internal_types::schema::InfluxFieldType`. -/
inductive InfluxFieldType where
  | Float
  | Integer
  | UInteger
  | Str
  | Boolean
deriving DecidableEq, Repr

/-- Column types of `internal_types::schema::InfluxColumnType`. -/
inductive InfluxColumnType where
  | Tag
  | Field (t : InfluxFieldType)
  | Timestamp
deriving DecidableEq, Repr

/-- Model of an `f64`: a NaN flag plus an abstract (integral) numeric value.
The claims under verification only ever use NaN and integral doubles, and
the code only compares doubles with `PartialOrd` (all comparisons against a
NaN are false, and NaN operands are explicitly filtered before any
comparison in the statistics code), so this abstraction is exact for them. -/
structure F64 where
  isNan : Bool
  val : Int
deriving DecidableEq, Repr

/-- Model of `f64::NAN`. -/
def F64.nan : F64 := ⟨true, 0⟩

/-- An integral double such as `2.0`. -/
def F64.ofInt (n : Int) : F64 := ⟨false, n⟩

/-- Model of `PartialOrd::lt` on the `F64` model: false whenever a NaN is involved. -/
def F64.ltb (a b : F64) : Bool := !a.isNan && !b.isNan && a.val < b.val

/-- Modelled from the spec: `StatValues` of
`data_types/src/partition_metadata.rs` (that file is not part of the
sources at hand; only its users are).  Running min/max/non-null-count
statistics of one column. -/
structure StatValues (α : Type) where
  min : Option α
  max : Option α
  count : Nat
deriving DecidableEq, Repr

/-- Model of `StatValues::default()`: empty statistics. -/
def StatValues.empty {α : Type} : StatValues α := ⟨none, none, 0⟩

/-- Modelled from the spec: `StatValues::update`.  "count of non-null"
grows by one for every value the caller feeds in (NaN included, spec:
"count still includes NaN values as non-null"), while min/max tracking
"must filter NaN explicitly" — a NaN value never becomes min or max.
`ltb` is the strict `PartialOrd` comparison of the value type and `nan`
its `IsNan` test (constantly false for non-float types). -/
def StatValues.update {α : Type} (ltb : α → α → Bool) (nan : α → Bool)
    (s : StatValues α) (v : α) : StatValues α :=
  let count := s.count + 1
  if nan v then { s with count }
  else
    let min := match s.min with
      | none => some v
      | some m => if ltb v m then some v else some m
    let max := match s.max with
      | none => some v
      | some m => if ltb m v then some v else some m
  { min, max, count }

/-- Non-float types never report NaN. -/
def noNan {α : Type} (_ : α) : Bool := false

/-- Model of `PartialOrd::lt` for `bool` (`false < true`). -/
def boolLtb (a b : Bool) : Bool := !a && b

/-- Model of `Ord::lt` for strings (lexicographic). -/
def strLtb (a b : String) : Bool := a < b

/-- Model of `Ord::lt` for `i64` / timestamps. -/
def intLtb (a b : Int) : Bool := a < b

/-- Model of `Ord::lt` for `u64`. -/
def natLtb (a b : Nat) : Bool := a < b

/-! Section: Bit-mask utilities (`arrow_util/src/bitset.rs` semantics)

A validity byte mask is a `List Nat` of bytes; bit `p` of the mask is bit
`p % 8` (least-significant first, the arrow convention) of byte `p / 8`.
The `BitSet` held by a column is modelled densely as a `List Bool`. -/

/-- Bit `p` of a byte mask (LSB-first within each byte). -/
def maskBit (mask : List Nat) (p : Nat) : Bool :=
  Nat.testBit (mask.getD (p / 8) 0) (p % 8)

/-- Model of `iter_set_positions`: the set bit positions of a byte mask, ascending. -/
def iterSetPositions (mask : List Nat) : List Nat :=
  (List.range (8 * mask.length)).filter (fun p => maskBit mask p)

/-- Model of `u8::reverse_bits`. -/
def reverseBits8 (x : Nat) : Nat :=
  (List.range 8).foldl (fun acc i => acc + if x.testBit i then 2 ^ (7 - i) else 0) 0

/-- Bitwise NOT of a byte (`!x` on `u8`); `reverseBits8` always yields a
value `< 256` so plain subtraction is the exact complement. -/
def notByte (x : Nat) : Nat := 255 - x

/-- Model of `BitSet::append_unset`. -/
def bitsAppendUnset (bits : List Bool) (n : Nat) : List Bool :=
  bits ++ List.replicate n false

/-- Model of `BitSet::append_bits`: append `count` bits read off a byte mask. -/
def bitsAppendBits (bits : List Bool) (count : Nat) (mask : List Nat) : List Bool :=
  bits ++ (List.range count).map (fun p => maskBit mask p)

/-- Model of `Vec::resize(len, value)` on the `List` model. -/
def listResize {α : Type} (l : List α) (n : Nat) (v : α) : List α :=
  if n ≤ l.length then l.take n else l ++ List.replicate (n - l.length) v

/-! Section: String dictionary (`arrow_util/src/dictionary.rs`)

`StringDictionary` keeps a `PackedStringArray` of the interned strings
(modelled as `List String`) plus a hash map from string to index.  The map
is consulted only through hashbrown's raw-entry API with an explicit
equality check `value == storage.get(key)`, so it is modelled
extensionally: look up the first storage index holding an equal string. -/

/-- First index of `s` in `l`, if any. -/
def firstIdx (l : List String) (s : String) : Option Nat :=
  match l with
  | [] => none
  | x :: xs => if x = s then some 0 else (firstIdx xs s).map (· + 1)

/-- Model of `arrow_util::dictionary::StringDictionary` (symbols modelled as `Int`,
matching the `DID = i32` instantiation used by tag columns). -/
structure StringDictionary where
  storage : List String
deriving DecidableEq, Repr

/-- Model of `StringDictionary::new`. -/
def StringDictionary.new : StringDictionary := ⟨[]⟩

/-- Model of `StringDictionary::lookup_value_or_insert`: the existing symbol for the
string if interned, else append it to storage and return the new index. -/
def StringDictionary.lookup_value_or_insert (d : StringDictionary) (value : String) :
    Int × StringDictionary :=
  match firstIdx d.storage value with
  | some i => ((i : Int), d)
  | none => ((d.storage.length : Int), ⟨d.storage ++ [value]⟩)

/-- Model of `StringDictionary::lookup_id`: reverse lookup, `none` for a symbol the
dictionary never issued (negative or out of range). -/
def StringDictionary.lookup_id (d : StringDictionary) (id : Int) : Option String :=
  if id < 0 then none else d.storage.get? id.toNat

/-- Model of `StringDictionary::id` (non-inserting forward lookup). -/
def StringDictionary.id (d : StringDictionary) (value : String) : Option Int :=
  (firstIdx d.storage value).map (fun i => (i : Int))

/-- Model of `INVALID_DID` (`-1`), the placeholder for null rows of tag columns. -/
def INVALID_DID : Int := -1

/-! Section: Entry columns (the write-path input, `entry::Column`)

The `entry` crate wraps flatbuffer-encoded table batches.  A column payload
carries a name, a logical type, the batch row count, an optional null
byte-mask (one bit per row, most-significant bit first, 1 = null) and a
typed values array holding exactly the non-null values in row order. -/

/-- Model of `entry_fb::LogicalColumnType`. -/
inductive LogicalColumnType where
  | Tag
  | Field
  | Time
deriving DecidableEq, Repr

/-- The typed values union of an entry column (`entry_fb::ColumnValues`). -/
inductive EntryValues where
  | f64vs (vs : List F64)
  | i64vs (vs : List Int)
  | u64vs (vs : List Nat)
  | strvs (vs : List String)
  | boolvs (vs : List Bool)
deriving DecidableEq, Repr

/-- Number of values held by the union (= number of non-null rows for a
well-formed batch column). -/
def EntryValues.numValues : EntryValues → Nat
  | .f64vs vs => vs.length
  | .i64vs vs => vs.length
  | .u64vs vs => vs.length
  | .strvs vs => vs.length
  | .boolvs vs => vs.length

/-- Model of `entry::Column`: a single column of a table batch. -/
structure EntryColumn where
  name : String
  logical : LogicalColumnType
  row_count : Nat
  null_mask : Option (List Nat)
  values : EntryValues
deriving DecidableEq, Repr

/-- Model of `entry::Column::influx_type`: tag and time columns have fixed types,
field columns take their subtype from the values union. -/
def EntryColumn.influx_type (c : EntryColumn) : InfluxColumnType :=
  match c.logical with
  | .Tag => .Tag
  | .Time => .Timestamp
  | .Field =>
    match c.values with
    | .f64vs _ => .Field .Float
    | .i64vs _ => .Field .Integer
    | .u64vs _ => .Field .UInteger
    | .strvs _ => .Field .Str
    | .boolvs _ => .Field .Boolean

/-- Number of 1-bits of a byte. -/
def popCount8 (x : Nat) : Nat :=
  ((List.range 8).filter (fun i => x.testBit i)).length

/-- Number of rows an entry column's null mask marks as null
(`entry::TableBatch::row_count` counts them with `count_ones`). -/
def EntryColumn.nullCount (c : EntryColumn) : Nat :=
  match c.null_mask with
  | some m => (m.map popCount8).sum
  | none => 0

/-- Well-formedness of an entry column, as established by the entry
builders: the declared row count is the number of supplied values plus the
number of null rows, and every mask byte is an actual `u8`. -/
def EntryColumn.wf (c : EntryColumn) : Prop :=
  c.row_count = c.values.numValues + c.nullCount ∧
    (∀ m, c.null_mask = some m → ∀ b ∈ m, b < 256)

instance (c : EntryColumn) : Decidable c.wf := by
  unfold EntryColumn.wf; infer_instance

/-- Errors of `mutable_buffer/src/column.rs`. -/
inductive ColumnError where
  | TypeMismatch (existing inserted : InfluxColumnType)
  | InvalidNullMask (expected_bytes actual_bytes : Nat)
deriving DecidableEq, Repr

/-- Model of `construct_valid_mask` (column.rs): derive the batch's validity byte
mask from its null mask.  The null mask stores bits backwards
(MSB-first), hence the `reverse_bits`; complementing turns null marks into
validity bits.  A missing null mask means every row is valid. -/
def constructValidMask (c : EntryColumn) : Except ColumnError (List Nat) :=
  let bufLen := (c.row_count + 7) / 8
  match c.null_mask with
  | some data =>
    if data.length = bufLen then
      .ok (data.map (fun x => notByte (reverseBits8 x)))
    else
      .error (.InvalidNullMask bufLen data.length)
  | none => .ok (List.replicate bufLen 255)

/-! Section: Mutable-buffer columns (`mutable_buffer/src/column.rs`) -/

/-- Model of `ColumnData`: the tagged union of the six backing-store kinds, each
with its running statistics.  Boolean data is a bitset (`List Bool`),
string data a packed string array (`List String`, with empty strings at
null/padded slots), tag data a vector of dictionary ids. -/
inductive ColumnData where
  | f64d (data : List F64) (stats : StatValues F64)
  | i64d (data : List Int) (stats : StatValues Int)
  | u64d (data : List Nat) (stats : StatValues Nat)
  | strd (data : List String) (stats : StatValues String)
  | boold (data : List Bool) (stats : StatValues Bool)
  | tagd (data : List Int) (dict : StringDictionary) (stats : StatValues String)
deriving DecidableEq, Repr

/-- Length of the backing store. -/
def ColumnData.length : ColumnData → Nat
  | .f64d data _ => data.length
  | .i64d data _ => data.length
  | .u64d data _ => data.length
  | .strd data _ => data.length
  | .boold data _ => data.length
  | .tagd data _ _ => data.length

/-- Model of `Column`: validity bitmap plus typed backing store. -/
structure Column where
  influx_type : InfluxColumnType
  valid : List Bool
  data : ColumnData
deriving DecidableEq, Repr

/-- Model of `Column::new(row_count, column_type)`: `row_count` null/default rows. -/
def Column.new (row_count : Nat) (column_type : InfluxColumnType) : Column :=
  let data : ColumnData :=
    match column_type with
    | .Field .Boolean => .boold (List.replicate row_count false) .empty
    | .Field .UInteger => .u64d (List.replicate row_count 0) .empty
    | .Field .Float => .f64d (List.replicate row_count (F64.ofInt 0)) .empty
    | .Field .Integer | .Timestamp => .i64d (List.replicate row_count 0) .empty
    | .Field .Str => .strd (List.replicate row_count "") .empty
    | .Tag => .tagd (List.replicate row_count INVALID_DID) StringDictionary.new .empty
  ⟨column_type, List.replicate row_count false, data⟩

/-- Model of `Column::len` (the validity bitmap's length). -/
def Column.len (c : Column) : Nat := c.valid.length

/-- Model of `data_types::partition_metadata::Statistics`: typed statistics
snapshot. -/
inductive Statistics where
  | i64s (s : StatValues Int)
  | u64s (s : StatValues Nat)
  | f64s (s : StatValues F64)
  | bools (s : StatValues Bool)
  | strs (s : StatValues String)
deriving DecidableEq, Repr

/-- The non-null count recorded by a statistics snapshot. -/
def Statistics.count : Statistics → Nat
  | .i64s s => s.count
  | .u64s s => s.count
  | .f64s s => s.count
  | .bools s => s.count
  | .strs s => s.count

/-- Model of `Column::stats`: string and tag columns both report string stats. -/
def Column.stats (c : Column) : Statistics :=
  match c.data with
  | .f64d _ s => .f64s s
  | .i64d _ s => .i64s s
  | .u64d _ s => .u64s s
  | .boold _ s => .bools s
  | .strd _ s => .strs s
  | .tagd _ _ s => .strs s

/-- Model of `Column::validate_schema`. -/
def Column.validate_schema (c : Column) (e : EntryColumn) : Except ColumnError Unit :=
  if e.influx_type = c.influx_type then .ok ()
  else .error (.TypeMismatch c.influx_type e.influx_type)

/-- Model of `handle_write` (column.rs): resize the backing vector by `row_count`
default entries, then write each supplied value at the next valid
position, updating statistics per value.  `none` models a panic: either
the indexing panic of `col_data[data_offset + idx]` when a valid position
falls outside the resized range, or the trailing
`assert_eq!(stats.count - initial_non_null_count, to_add)`. -/
def handleWrite {α : Type} (ltb : α → α → Bool) (nan : α → Bool) (dflt : α)
    (row_count : Nat) (mask : List Nat) (entry_data : List α)
    (col_data : List α) (stats : StatValues α) : Option (List α × StatValues α) :=
  let data_offset := col_data.length
  let pairs := (iterSetPositions mask).zip entry_data
  if pairs.all (fun p => p.1 < row_count) then
    let init : List α × StatValues α := (col_data ++ List.replicate row_count dflt, stats)
    let res := pairs.foldl
      (fun acc p => (acc.1.set (data_offset + p.1) p.2, acc.2.update ltb nan p.2)) init
    if res.2.count - stats.count = entry_data.length then some res else none
  else none

/-- The boolean arm of `Column::append`: the backing bitset is extended by
`row_count` unset bits and the bits at valid positions holding `true` are
set (`BitSet::set` is modelled as in-range list update). -/
def writeBool (row_count : Nat) (mask : List Nat) (entry_data : List Bool)
    (col_data : List Bool) (stats : StatValues Bool) :
    Option (List Bool × StatValues Bool) :=
  let data_offset := col_data.length
  let pairs := (iterSetPositions mask).zip entry_data
  let init : List Bool × StatValues Bool := (bitsAppendUnset col_data row_count, stats)
  let res := pairs.foldl
    (fun acc p =>
      ((if p.2 then acc.1.set (data_offset + p.1) true else acc.1),
        acc.2.update boolLtb noNan p.2))
    init
  if res.2.count - stats.count = entry_data.length then some res else none

/-- The string arm of `Column::append`: the packed string array is padded
with empty slots up to each valid position, the value appended there, and
finally padded to `data_offset + row_count`. -/
def writeStr (row_count : Nat) (mask : List Nat) (entry_data : List String)
    (col_data : List String) (stats : StatValues String) :
    Option (List String × StatValues String) :=
  let data_offset := col_data.length
  let pairs := entry_data.zip (iterSetPositions mask)
  let res := pairs.foldl
    (fun acc p =>
      let padded := acc.1 ++ List.replicate (data_offset + p.2 - acc.1.length) ""
      (padded ++ [p.1], acc.2.update strLtb noNan p.1))
    (col_data, stats)
  let final := res.1 ++ List.replicate (data_offset + row_count - res.1.length) ""
  if res.2.count - stats.count = entry_data.length then some (final, res.2) else none

/-- The tag arm of `Column::append`: the backing id vector is resized by
`row_count` `INVALID_DID` entries and each valid position receives the
dictionary symbol of its value, interning it as a side effect. -/
def writeTag (row_count : Nat) (mask : List Nat) (entry_data : List String)
    (col_data : List Int) (dict : StringDictionary) (stats : StatValues String) :
    Option (List Int × StringDictionary × StatValues String) :=
  let data_offset := col_data.length
  let pairs := (iterSetPositions mask).zip entry_data
  if pairs.all (fun p => p.1 < row_count) then
    let init : List Int × StringDictionary × StatValues String :=
      (col_data ++ List.replicate row_count INVALID_DID, dict, stats)
    let res := pairs.foldl
      (fun acc p =>
        let ins := acc.2.1.lookup_value_or_insert p.2
        (acc.1.set (data_offset + p.1) ins.1, ins.2, acc.2.2.update strLtb noNan p.2))
      init
    if res.2.2.count - stats.count = entry_data.length then some res else none
  else none

/-- Result of a fallible, state-mutating operation on a column: success
with the new column, a returned error together with the column as left
behind by the partial execution, or a panic. -/
inductive AppendResult where
  | ok (c : Column)
  | err (e : ColumnError) (c : Column)
  | panicked
deriving DecidableEq, Repr

/-- The typed-values dispatch of `Column::append` (the `match &mut
self.data` block): write the batch values into the matching backing-store
kind.  A values union not matching the column's backing kind is the
`.expect("invalid flatbuffer")` panic, `none` here. -/
def writeData (data : ColumnData) (vals : EntryValues) (rc : Nat) (mask : List Nat) :
    Option ColumnData :=
  match data, vals with
  | .boold col_data stats, .boolvs vs =>
    (writeBool rc mask vs col_data stats).map fun r => .boold r.1 r.2
  | .u64d col_data stats, .u64vs vs =>
    (handleWrite natLtb noNan 0 rc mask vs col_data stats).map
      fun r => .u64d r.1 r.2
  | .f64d col_data stats, .f64vs vs =>
    (handleWrite F64.ltb F64.isNan (F64.ofInt 0) rc mask vs col_data stats).map
      fun r => .f64d r.1 r.2
  | .i64d col_data stats, .i64vs vs =>
    (handleWrite intLtb noNan 0 rc mask vs col_data stats).map
      fun r => .i64d r.1 r.2
  | .strd col_data stats, .strvs vs =>
    (writeStr rc mask vs col_data stats).map fun r => .strd r.1 r.2
  | .tagd col_data dict stats, .strvs vs =>
    (writeTag rc mask vs col_data dict stats).map
      fun r => .tagd r.1 r.2.1 r.2.2
  | _, _ => none

/-- Model of `Column::append`: validate the schema, succeed immediately on an empty
batch, construct the validity mask (rejecting bad null masks before any
mutation), write the typed values, and extend the validity bitmap by the
batch's mask. -/
def Column.append (c : Column) (e : EntryColumn) : AppendResult :=
  match c.validate_schema e with
  | .error er => .err er c
  | .ok _ =>
    if e.row_count = 0 then .ok c
    else
      match constructValidMask e with
      | .error er => .err er c
      | .ok mask =>
        match writeData c.data e.values e.row_count mask with
        | none => .panicked
        | some data =>
          .ok ⟨c.influx_type, bitsAppendBits c.valid e.row_count mask, data⟩

/-- Model of `Column::push_nulls_to_len`: no-op at the current length, null-pad
beyond it, `none` (the `"cannot shrink column"` assertion) below it. -/
def Column.push_nulls_to_len (c : Column) (len : Nat) : Option Column :=
  if c.valid.length = len then some c
  else if c.valid.length < len then
    let delta := len - c.valid.length
    let data : ColumnData :=
      match c.data with
      | .f64d d s => .f64d (listResize d len (F64.ofInt 0)) s
      | .i64d d s => .i64d (listResize d len 0) s
      | .u64d d s => .u64d (listResize d len 0) s
      | .strd d s => .strd (d ++ List.replicate delta "") s
      | .boold d s => .boold (bitsAppendUnset d delta) s
      | .tagd d dict s => .tagd (listResize d len INVALID_DID) dict s
    some ⟨c.influx_type, bitsAppendUnset c.valid delta, data⟩
  else none

/-! Section: Mutable chunks (`mutable_buffer/src/chunk.rs`)

The column `HashMap` is modelled as an association list in insertion
order; `rows()` reads the length of "some" column (`values().next()`),
here the first binding.  The cached `Arc<ChunkSnapshot>` is modelled by an
allocation identifier: every `Arc::new(ChunkSnapshot::new(..))` yields a
fresh id (distinct live allocations have distinct addresses), and pointer
equality of handles is equality of ids.  The advisory memory-accounting
metric is not modelled. -/

/-- Errors of `mutable_buffer/src/chunk.rs` reachable from the write path. -/
inductive ChunkError where
  | ColumnError (column : String) (source : ColumnError)
  | IncorrectRowCount (column : String) (expected actual : Nat)
deriving DecidableEq, Repr

/-- Model of `MBChunk`. -/
structure MBChunk where
  table_name : String
  columns : List (String × Column)
  snapCache : Option Nat
  nextSnapId : Nat
deriving DecidableEq, Repr

/-- Model of `MBChunk::new`. -/
def MBChunk.new (table_name : String) : MBChunk := ⟨table_name, [], none, 0⟩

/-- Association-list lookup standing for `HashMap::get`. -/
def findCol (cols : List (String × Column)) (name : String) : Option Column :=
  match cols with
  | [] => none
  | (n, c) :: rest => if n = name then some c else findCol rest name

/-- Replace the binding of `name` (in-place column mutation). -/
def setCol (cols : List (String × Column)) (name : String) (c : Column) :
    List (String × Column) :=
  match cols with
  | [] => []
  | (n, c0) :: rest => if n = name then (n, c) :: rest else (n, c0) :: setCol rest name c

/-- Model of `MBChunk::rows`: the length of any column (all equal by invariant),
0 for an empty chunk. -/
def MBChunk.rows (ch : MBChunk) : Nat :=
  (ch.columns.head?.map fun p => p.2.len).getD 0

/-- The validation pass of `write_columns` (`try_for_each`): every batch
column must report `additional_rows` rows, and batch columns whose name
already exists in the chunk must pass the schema check.  Returns the first
error. -/
def validateColumns (cols : List (String × Column)) (additional : Nat) :
    List EntryColumn → Option ChunkError
  | [] => none
  | e :: rest =>
    if e.row_count ≠ additional then
      some (.IncorrectRowCount e.name additional e.row_count)
    else
      match findCol cols e.name with
      | some c =>
        match c.validate_schema e with
        | .error er => some (.ColumnError e.name er)
        | .ok _ => validateColumns cols additional rest
      | none => validateColumns cols additional rest

/-- Result of a pass mutating the column map. -/
inductive PassResult where
  | ok (cols : List (String × Column))
  | err (e : ChunkError) (cols : List (String × Column))
  | panicked
deriving DecidableEq, Repr

/-- The append pass of `write_columns`: for each batch column, fetch the
chunk column of that name or insert a fresh one null-backfilled to
`row_count_before_insert`, append the batch column to it, and check the
`assert_eq!(column.len(), final_row_count)`.  An append error aborts the
pass, leaving the columns mutated so far in place. -/
def appendPass (row_count_before final : Nat) :
    List (String × Column) → List EntryColumn → PassResult
  | cols, [] => .ok cols
  | cols, e :: rest =>
    let cols0 :=
      match findCol cols e.name with
      | some _ => cols
      | none => cols ++ [(e.name, Column.new row_count_before e.influx_type)]
    let col := (findCol cols0 e.name).getD (Column.new row_count_before e.influx_type)
    match col.append e with
    | .panicked => .panicked
    | .err er c' => .err (.ColumnError e.name er) (setCol cols0 e.name c')
    | .ok c' =>
      if c'.len = final then appendPass row_count_before final (setCol cols0 e.name c') rest
      else .panicked

/-- The padding pass of `write_columns`: after all appends, every column
of the chunk is null-padded to the new total row count. -/
def padPass (final : Nat) : List (String × Column) → Option (List (String × Column))
  | [] => some []
  | (n, c) :: rest =>
    match c.push_nulls_to_len final with
    | none => none
    | some c' => (padPass final rest).map ((n, c') :: ·)

/-- Result of a fallible, state-mutating operation on a chunk. -/
inductive WriteResult where
  | ok (c : MBChunk)
  | err (e : ChunkError) (c : MBChunk)
  | panicked
deriving DecidableEq, Repr

/-- Model of `MBChunk::write_columns`. -/
def MBChunk.write_columns (ch : MBChunk) (batch : List EntryColumn) : WriteResult :=
  let row_count_before := ch.rows
  let additional := (batch.head?.map fun e => e.row_count).getD 0
  let final := row_count_before + additional
  match validateColumns ch.columns additional batch with
  | some e => .err e ch
  | none =>
    match appendPass row_count_before final ch.columns batch with
    | .panicked => .panicked
    | .err e cols1 => .err e { ch with columns := cols1 }
    | .ok cols1 =>
      match padPass final cols1 with
      | none => .panicked
      | some cols2 => .ok { ch with columns := cols2 }

/-- Model of `entry::TableBatch` (one set of columns with uniform row count). -/
structure TableBatch where
  name : String
  columns : List EntryColumn
deriving DecidableEq, Repr

/-- Model of `MBChunk::write_table_batch`: assert the table name, delegate to
`write_columns`, and on success invalidate the cached snapshot.  A failed
write leaves the cache in place (the `?` returns before invalidation). -/
def MBChunk.write_table_batch (ch : MBChunk) (b : TableBatch) : WriteResult :=
  if b.name = ch.table_name then
    match ch.write_columns b.columns with
    | .ok ch' => .ok { ch' with snapCache := none }
    | .err e ch' => .err e ch'
    | .panicked => .panicked
  else .panicked

/-- Model of `MBChunk::snapshot`: return the cached snapshot handle if present and
valid, else build a fresh snapshot (a fresh allocation id), cache and
return it. -/
def MBChunk.snapshot (ch : MBChunk) : Nat × MBChunk :=
  match ch.snapCache with
  | some id => (id, ch)
  | none =>
    (ch.nextSnapId,
      { ch with snapCache := some ch.nextSnapId, nextSnapId := ch.nextSnapId + 1 })

/-! Section: Helper lemmas about statistics counting -/

theorem StatValues.update_count {α : Type} (ltb : α → α → Bool) (nan : α → Bool)
    (s : StatValues α) (v : α) : (s.update ltb nan v).count = s.count + 1 := by
  unfold StatValues.update
  by_cases h : nan v = true <;> simp [h]

theorem foldl_proj_succ {γ σ : Type _} (g : σ → γ → σ) (proj : σ → Nat)
    (h : ∀ s x, proj (g s x) = proj s + 1) :
    ∀ (l : List γ) (s0 : σ), proj (l.foldl g s0) = proj s0 + l.length := by
  intro l
  induction l with
  | nil => intro s0; simp
  | cons x xs ih =>
    intro s0
    rw [List.foldl_cons, ih, h]
    simp [List.length_cons]
    omega

theorem handleWrite_count {α : Type} (ltb : α → α → Bool) (nan : α → Bool) (dflt : α)
    (rc : Nat) (mask : List Nat) (vs col_data : List α) (stats : StatValues α)
    (r : List α × StatValues α)
    (h : handleWrite ltb nan dflt rc mask vs col_data stats = some r) :
    r.2.count = stats.count + vs.length := by
  unfold handleWrite at h
  by_cases hall : (((iterSetPositions mask).zip vs).all fun p => decide (p.1 < rc)) = true
  · simp only [hall, if_true] at h
    have hcnt := foldl_proj_succ
      (fun (acc : List α × StatValues α) (p : Nat × α) =>
        (acc.1.set (col_data.length + p.1) p.2, acc.2.update ltb nan p.2))
      (fun acc => acc.2.count)
      (fun s x => StatValues.update_count ltb nan s.2 x.2)
      ((iterSetPositions mask).zip vs)
      (col_data ++ List.replicate rc dflt, stats)
    split at h
    · next hassert =>
      cases h
      simp only [hcnt] at hassert ⊢
      omega
    · exact absurd h (by simp)
  · simp only [hall, if_false] at h
    exact absurd h (by simp)

theorem writeBool_count (rc : Nat) (mask : List Nat) (vs col_data : List Bool)
    (stats : StatValues Bool) (r : List Bool × StatValues Bool)
    (h : writeBool rc mask vs col_data stats = some r) :
    r.2.count = stats.count + vs.length := by
  unfold writeBool at h
  dsimp only at h
  have hcnt := foldl_proj_succ
    (fun (acc : List Bool × StatValues Bool) (p : Nat × Bool) =>
      ((if p.2 then acc.1.set (col_data.length + p.1) true else acc.1),
        acc.2.update boolLtb noNan p.2))
    (fun acc => acc.2.count)
    (fun s x => StatValues.update_count boolLtb noNan s.2 x.2)
    ((iterSetPositions mask).zip vs)
    (bitsAppendUnset col_data rc, stats)
  split at h
  · next hassert =>
    cases h
    simp only [hcnt] at hassert ⊢
    omega
  · exact absurd h (by simp)

theorem writeStr_count (rc : Nat) (mask : List Nat) (vs col_data : List String)
    (stats : StatValues String) (r : List String × StatValues String)
    (h : writeStr rc mask vs col_data stats = some r) :
    r.2.count = stats.count + vs.length := by
  unfold writeStr at h
  dsimp only at h
  have hcnt := foldl_proj_succ
    (fun (acc : List String × StatValues String) (p : String × Nat) =>
      ((acc.1 ++ List.replicate (col_data.length + p.2 - acc.1.length) "") ++ [p.1],
        acc.2.update strLtb noNan p.1))
    (fun acc => acc.2.count)
    (fun s x => StatValues.update_count strLtb noNan s.2 x.1)
    (vs.zip (iterSetPositions mask))
    (col_data, stats)
  split at h
  · next hassert =>
    cases h
    simp only [hcnt] at hassert ⊢
    omega
  · exact absurd h (by simp)

theorem writeTag_count (rc : Nat) (mask : List Nat) (vs : List String)
    (col_data : List Int) (dict : StringDictionary) (stats : StatValues String)
    (r : List Int × StringDictionary × StatValues String)
    (h : writeTag rc mask vs col_data dict stats = some r) :
    r.2.2.count = stats.count + vs.length := by
  unfold writeTag at h
  by_cases hall : (((iterSetPositions mask).zip vs).all fun p => decide (p.1 < rc)) = true
  · simp only [hall, if_true] at h
    have hcnt := foldl_proj_succ
      (fun (acc : List Int × StringDictionary × StatValues String) (p : Nat × String) =>
        (acc.1.set (col_data.length + p.1) (acc.2.1.lookup_value_or_insert p.2).1,
          (acc.2.1.lookup_value_or_insert p.2).2, acc.2.2.update strLtb noNan p.2))
      (fun acc => acc.2.2.count)
      (fun s x => StatValues.update_count strLtb noNan s.2.2 x.2)
      ((iterSetPositions mask).zip vs)
      (col_data ++ List.replicate rc INVALID_DID, dict, stats)
    split at h
    · next hassert =>
      cases h
      simp only [hcnt] at hassert ⊢
      omega
    · exact absurd h (by simp)
  · simp only [hall, if_false] at h
    exact absurd h (by simp)

theorem bitsAppendBits_length (bits : List Bool) (n : Nat) (mask : List Nat) :
    (bitsAppendBits bits n mask).length = bits.length + n := by
  simp [bitsAppendBits]

/-- Projection of the column carried by a successful append. -/
def AppendResult.okCol : AppendResult → Option Column
  | .ok c => some c
  | _ => none

/-! Section: Claim theorems about `Column::append` -/

/-- C2.  For every column and every well-formed batch column of matching
logical type, if `Column::append` succeeds then the column's `len()`
equals its previous length plus the batch's row count, and the recorded
non-null count grew by exactly the number of non-null values of the batch
(the batch's values array holds exactly its non-null values). -/
theorem append_ok_len_count (c : Column) (e : EntryColumn) (c' : Column)
    (hwf : e.wf) (h : c.append e = .ok c') :
    c'.len = c.len + e.row_count ∧
      c'.stats.count = c.stats.count + e.values.numValues := by
  obtain ⟨ity, valid, data⟩ := c
  unfold Column.append Column.validate_schema at h
  by_cases hty : e.influx_type = ity
  case neg => rw [if_neg hty] at h; simp at h
  rw [if_pos hty] at h
  dsimp only at h
  by_cases h0 : e.row_count = 0
  case pos =>
    rw [if_pos h0] at h
    cases h
    have hnv : e.values.numValues = 0 := by
      have := hwf.1
      omega
    simp [Column.len, h0, hnv]
  rw [if_neg h0] at h
  cases hm : constructValidMask e with
  | error er => rw [hm] at h; simp at h
  | ok mask =>
  rw [hm] at h
  dsimp only at h
  cases data with
  | f64d cd st =>
    cases hv : e.values with
    | i64vs vs => rw [hv] at h; simp [writeData] at h
    | u64vs vs => rw [hv] at h; simp [writeData] at h
    | strvs vs => rw [hv] at h; simp [writeData] at h
    | boolvs vs => rw [hv] at h; simp [writeData] at h
    | f64vs vs =>
      rw [hv] at h
      dsimp only [writeData] at h
      cases hw : handleWrite F64.ltb F64.isNan (F64.ofInt 0) e.row_count mask vs cd st with
      | none => rw [hw] at h; simp at h
      | some r =>
        rw [hw] at h
        simp only [Option.map_some'] at h
        cases h
        refine ⟨by simp [Column.len, bitsAppendBits], ?_⟩
        have hc := handleWrite_count _ _ _ _ _ _ _ _ _ hw
        simp [Column.stats, Statistics.count, EntryValues.numValues, hc]
  | i64d cd st =>
    cases hv : e.values with
    | f64vs vs => rw [hv] at h; simp [writeData] at h
    | u64vs vs => rw [hv] at h; simp [writeData] at h
    | strvs vs => rw [hv] at h; simp [writeData] at h
    | boolvs vs => rw [hv] at h; simp [writeData] at h
    | i64vs vs =>
      rw [hv] at h
      dsimp only [writeData] at h
      cases hw : handleWrite intLtb noNan 0 e.row_count mask vs cd st with
      | none => rw [hw] at h; simp at h
      | some r =>
        rw [hw] at h
        simp only [Option.map_some'] at h
        cases h
        refine ⟨by simp [Column.len, bitsAppendBits], ?_⟩
        have hc := handleWrite_count _ _ _ _ _ _ _ _ _ hw
        simp [Column.stats, Statistics.count, EntryValues.numValues, hc]
  | u64d cd st =>
    cases hv : e.values with
    | f64vs vs => rw [hv] at h; simp [writeData] at h
    | i64vs vs => rw [hv] at h; simp [writeData] at h
    | strvs vs => rw [hv] at h; simp [writeData] at h
    | boolvs vs => rw [hv] at h; simp [writeData] at h
    | u64vs vs =>
      rw [hv] at h
      dsimp only [writeData] at h
      cases hw : handleWrite natLtb noNan 0 e.row_count mask vs cd st with
      | none => rw [hw] at h; simp at h
      | some r =>
        rw [hw] at h
        simp only [Option.map_some'] at h
        cases h
        refine ⟨by simp [Column.len, bitsAppendBits], ?_⟩
        have hc := handleWrite_count _ _ _ _ _ _ _ _ _ hw
        simp [Column.stats, Statistics.count, EntryValues.numValues, hc]
  | strd cd st =>
    cases hv : e.values with
    | f64vs vs => rw [hv] at h; simp [writeData] at h
    | i64vs vs => rw [hv] at h; simp [writeData] at h
    | u64vs vs => rw [hv] at h; simp [writeData] at h
    | boolvs vs => rw [hv] at h; simp [writeData] at h
    | strvs vs =>
      rw [hv] at h
      dsimp only [writeData] at h
      cases hw : writeStr e.row_count mask vs cd st with
      | none => rw [hw] at h; simp at h
      | some r =>
        rw [hw] at h
        simp only [Option.map_some'] at h
        cases h
        refine ⟨by simp [Column.len, bitsAppendBits], ?_⟩
        have hc := writeStr_count _ _ _ _ _ _ hw
        simp [Column.stats, Statistics.count, EntryValues.numValues, hc]
  | boold cd st =>
    cases hv : e.values with
    | f64vs vs => rw [hv] at h; simp [writeData] at h
    | i64vs vs => rw [hv] at h; simp [writeData] at h
    | u64vs vs => rw [hv] at h; simp [writeData] at h
    | strvs vs => rw [hv] at h; simp [writeData] at h
    | boolvs vs =>
      rw [hv] at h
      dsimp only [writeData] at h
      cases hw : writeBool e.row_count mask vs cd st with
      | none => rw [hw] at h; simp at h
      | some r =>
        rw [hw] at h
        simp only [Option.map_some'] at h
        cases h
        refine ⟨by simp [Column.len, bitsAppendBits], ?_⟩
        have hc := writeBool_count _ _ _ _ _ _ hw
        simp [Column.stats, Statistics.count, EntryValues.numValues, hc]
  | tagd cd dict st =>
    cases hv : e.values with
    | f64vs vs => rw [hv] at h; simp [writeData] at h
    | i64vs vs => rw [hv] at h; simp [writeData] at h
    | u64vs vs => rw [hv] at h; simp [writeData] at h
    | boolvs vs => rw [hv] at h; simp [writeData] at h
    | strvs vs =>
      rw [hv] at h
      dsimp only [writeData] at h
      cases hw : writeTag e.row_count mask vs cd dict st with
      | none => rw [hw] at h; simp at h
      | some r =>
        rw [hw] at h
        simp only [Option.map_some'] at h
        cases h
        refine ⟨by simp [Column.len, bitsAppendBits], ?_⟩
        have hc := writeTag_count _ _ _ _ _ _ _ hw
        simp [Column.stats, Statistics.count, EntryValues.numValues, hc]

/-- Concrete inputs instantiating `append_ok_len_count`. -/
def c2wCol : Column := Column.new 0 (.Field .Float)

/-- A well-formed two-row float batch column. -/
def c2wEntry : EntryColumn := ⟨"val", .Field, 2, none, .f64vs [F64.ofInt 1, F64.ofInt 3]⟩

/-- The column produced by appending `c2wEntry` to `c2wCol`. -/
def c2wRes : Column :=
  ⟨.Field .Float, [true, true],
    .f64d [F64.ofInt 1, F64.ofInt 3] ⟨some (F64.ofInt 1), some (F64.ofInt 3), 2⟩⟩

/-- Witness for C2 at a concrete two-row float append. -/
theorem append_ok_len_count_witness :
    c2wRes.len = c2wCol.len + c2wEntry.row_count ∧
      c2wRes.stats.count = c2wCol.stats.count + c2wEntry.values.numValues :=
  append_ok_len_count c2wCol c2wEntry c2wRes (by decide) (by decide)

/-- C10.  A zero-row batch column of matching logical type is a no-op:
`append` returns `Ok` with the column unchanged (length, validity bitmap,
backing store and statistics included), and its null mask is never
examined — the arbitrary `e.null_mask` here may even have the wrong byte
length. -/
theorem append_zero_row_noop (c : Column) (e : EntryColumn)
    (hty : e.influx_type = c.influx_type) (h0 : e.row_count = 0) :
    c.append e = .ok c := by
  unfold Column.append Column.validate_schema
  rw [if_pos hty]
  dsimp only
  rw [if_pos h0]

/-- Witness for C10: a zero-row batch carrying a nonsense three-byte null
mask is accepted without touching the five-row float column. -/
theorem append_zero_row_noop_witness :
    (Column.new 5 (.Field .Float)).append
        ⟨"f", .Field, 0, some [1, 2, 3], .f64vs []⟩ =
      .ok (Column.new 5 (.Field .Float)) :=
  append_zero_row_noop _ _ (by decide) (by decide)

/-- Length of `listResize` when the list does not exceed the target. -/
theorem listResize_length {α : Type} (l : List α) (n : Nat) (v : α)
    (h : l.length ≤ n) : (listResize l n v).length = n := by
  unfold listResize
  by_cases hle : n ≤ l.length
  · rw [if_pos hle]
    simp
    omega
  · rw [if_neg hle]
    simp
    omega

/-- C9.  `push_nulls_to_len` at the current length leaves the column
entirely unchanged; at a larger target it extends the validity bitmap
(with nulls — unset bits) and the backing store to exactly the target
length; at a smaller target it fails the `"cannot shrink column"`
assertion (modelled by `none`), a branch unreachable whenever the target
is at least the current length.  The backing-store clause assumes the
column invariant `data.length = len`. -/
theorem push_nulls_to_len_spec (c : Column) (len : Nat)
    (hinv : c.data.length = c.len) :
    (c.push_nulls_to_len c.len = some c) ∧
      (c.len < len →
        ∃ c', c.push_nulls_to_len len = some c' ∧
          c'.influx_type = c.influx_type ∧
          c'.valid = c.valid ++ List.replicate (len - c.len) false ∧
          c'.data.length = len) ∧
      (len < c.len → c.push_nulls_to_len len = none) := by
  obtain ⟨ity, valid, data⟩ := c
  simp only [Column.len] at hinv ⊢
  refine ⟨?_, ?_, ?_⟩
  · unfold Column.push_nulls_to_len
    rw [if_pos rfl]
  · intro hlt
    cases data with
    | f64d d s =>
      dsimp only [ColumnData.length] at hinv
      unfold Column.push_nulls_to_len
      rw [if_neg (by dsimp only; omega), if_pos (by dsimp only; omega)]
      refine ⟨_, rfl, rfl, rfl, ?_⟩
      dsimp only [ColumnData.length]
      exact listResize_length _ _ _ (by omega)
    | i64d d s =>
      dsimp only [ColumnData.length] at hinv
      unfold Column.push_nulls_to_len
      rw [if_neg (by dsimp only; omega), if_pos (by dsimp only; omega)]
      refine ⟨_, rfl, rfl, rfl, ?_⟩
      dsimp only [ColumnData.length]
      exact listResize_length _ _ _ (by omega)
    | u64d d s =>
      dsimp only [ColumnData.length] at hinv
      unfold Column.push_nulls_to_len
      rw [if_neg (by dsimp only; omega), if_pos (by dsimp only; omega)]
      refine ⟨_, rfl, rfl, rfl, ?_⟩
      dsimp only [ColumnData.length]
      exact listResize_length _ _ _ (by omega)
    | strd d s =>
      dsimp only [ColumnData.length] at hinv
      unfold Column.push_nulls_to_len
      rw [if_neg (by dsimp only; omega), if_pos (by dsimp only; omega)]
      refine ⟨_, rfl, rfl, rfl, ?_⟩
      dsimp only [ColumnData.length]
      simp
      omega
    | boold d s =>
      dsimp only [ColumnData.length] at hinv
      unfold Column.push_nulls_to_len
      rw [if_neg (by dsimp only; omega), if_pos (by dsimp only; omega)]
      refine ⟨_, rfl, rfl, rfl, ?_⟩
      dsimp only [ColumnData.length, bitsAppendUnset]
      simp
      omega
    | tagd d dict s =>
      dsimp only [ColumnData.length] at hinv
      unfold Column.push_nulls_to_len
      rw [if_neg (by dsimp only; omega), if_pos (by dsimp only; omega)]
      refine ⟨_, rfl, rfl, rfl, ?_⟩
      dsimp only [ColumnData.length]
      exact listResize_length _ _ _ (by omega)
  · intro hlt
    unfold Column.push_nulls_to_len
    rw [if_neg (by dsimp only; omega), if_neg (by dsimp only; omega)]

/-- Concrete two-row float column instantiating `push_nulls_to_len_spec`. -/
def c9col : Column := Column.new 2 (.Field .Float)

/-- Witness for C9: padding a two-row column to four rows adds two null
rows to bitmap and backing store, and shrinking it to one row panics. -/
theorem push_nulls_to_len_spec_witness :
    c9col.data.length = c9col.len ∧ c9col.len < 4 ∧
      (∃ c', c9col.push_nulls_to_len 4 = some c' ∧
        c'.influx_type = c9col.influx_type ∧
        c'.valid = c9col.valid ++ List.replicate (4 - c9col.len) false ∧
        c'.data.length = 4) ∧
      c9col.push_nulls_to_len 1 = none :=
  ⟨by decide, by decide,
    (push_nulls_to_len_spec c9col 4 (by decide)).2.1 (by decide),
    (push_nulls_to_len_spec c9col 1 (by decide)).2.2 (by decide)⟩

/-- C6.  Appending `[NaN, 2.0]` (both non-null) to a fresh float column
records min = 2.0, max = 2.0 and non-null count 2: the NaN is counted but
never becomes min or max. -/
theorem nan_excluded_from_minmax :
    ((Column.new 0 (.Field .Float)).append
        ⟨"f", .Field, 2, none, .f64vs [F64.nan, F64.ofInt 2]⟩).okCol.map Column.stats =
      some (.f64s ⟨some (F64.ofInt 2), some (F64.ofInt 2), 2⟩) := by
  decide

/-! Section: Claim theorems about `MBChunk::write_columns` error atomicity -/

/-- Projection of the post-state carried by a failed write. -/
def WriteResult.errChunk : WriteResult → Option MBChunk
  | .err _ ch => some ch
  | _ => none

/-- Projection of the error carried by a failed write. -/
def WriteResult.errKind : WriteResult → Option ChunkError
  | .err e _ => some e
  | _ => none

/-- A one-row float batch column with no null mask. -/
def c1ColA : EntryColumn := ⟨"a", .Field, 1, none, .f64vs [F64.ofInt 1]⟩

/-- A one-row float batch column whose null mask is 2 bytes instead of the
expected 1. -/
def c1ColB : EntryColumn := ⟨"b", .Field, 1, some [0, 0], .f64vs [F64.ofInt 1]⟩

/-- C1 counterexample.  Writing the batch `[c1ColA, c1ColB]` into a fresh
chunk returns the `InvalidNullMask` error for column `b`, yet the chunk at
the moment of the error is mutated: column `a` has already been appended
(length 1) and an empty column `b` has been inserted, so the bad null mask
was not rejected before data was touched. -/
theorem write_columns_error_leaves_partial_mutation :
    ((MBChunk.new "t").write_columns [c1ColA, c1ColB]).errKind =
        some (.ColumnError "b" (.InvalidNullMask 1 2)) ∧
      ((MBChunk.new "t").write_columns [c1ColA, c1ColB]).errChunk ≠
        some (MBChunk.new "t") ∧
      (((MBChunk.new "t").write_columns [c1ColA, c1ColB]).errChunk.map
          fun ch => ch.columns.map fun p => (p.1, p.2.len)) =
        some [("a", 1), ("b", 0)] := by
  decide

/-- C1 amended.  Errors found by the pre-append validation pass (a batch
column with the wrong row count, or a type mismatch against a column
already in the chunk) abort `write_columns` with the chunk completely
unmutated; and an error returned by `Column::append` itself (an invalid
null mask, or a type mismatch caused by a duplicate name inside one batch)
always leaves the *offending* column untouched — but columns earlier in
the batch may already have been appended, as the counterexample shows. -/
theorem write_columns_validation_atomicity :
    (∀ (ch : MBChunk) (batch : List EntryColumn) (e : ChunkError),
        validateColumns ch.columns ((batch.head?.map fun x => x.row_count).getD 0)
            batch = some e →
          ch.write_columns batch = .err e ch) ∧
      (∀ (c : Column) (ec : EntryColumn) (er : ColumnError) (c' : Column),
          c.append ec = .err er c' → c' = c) := by
  constructor
  · intro ch batch e hv
    unfold MBChunk.write_columns
    dsimp only
    rw [hv]
  · intro c ec er c' h
    unfold Column.append Column.validate_schema at h
    by_cases hty : ec.influx_type = c.influx_type
    · rw [if_pos hty] at h
      dsimp only at h
      by_cases h0 : ec.row_count = 0
      · rw [if_pos h0] at h
        simp at h
      · rw [if_neg h0] at h
        cases hm : constructValidMask ec with
        | error er2 =>
          rw [hm] at h
          dsimp only at h
          cases h
          rfl
        | ok mask =>
          rw [hm] at h
          dsimp only at h
          cases hw : writeData c.data ec.values ec.row_count mask with
          | none => rw [hw] at h; simp at h
          | some d => rw [hw] at h; simp at h
    · rw [if_neg hty] at h
      dsimp only at h
      cases h
      rfl

/-- A batch whose second column reports a different row count. -/
def c1BadRows : List EntryColumn :=
  [⟨"a", .Field, 1, none, .f64vs [F64.ofInt 1]⟩,
    ⟨"b", .Field, 2, none, .f64vs [F64.ofInt 1, F64.ofInt 2]⟩]

/-- Witness for the amended C1: a row-count mismatch found by the
validation pass returns `IncorrectRowCount` with the chunk unchanged, and
a concrete failing `Column::append` leaves its column unchanged. -/
theorem write_columns_validation_atomicity_witness :
    (MBChunk.new "t").write_columns c1BadRows =
        .err (.IncorrectRowCount "b" 1 2) (MBChunk.new "t") ∧
      c2wCol = c2wCol :=
  ⟨write_columns_validation_atomicity.1 (MBChunk.new "t") c1BadRows
      (.IncorrectRowCount "b" 1 2) (by decide),
    write_columns_validation_atomicity.2 c2wCol c1ColB (.InvalidNullMask 1 2) c2wCol
      (by decide)⟩

/-! Section: Claim theorems about the chunk row-count invariant -/

/-- Padding a column returns its exact target length. -/
theorem push_nulls_some_len (c : Column) (n : Nat) (c' : Column)
    (h : c.push_nulls_to_len n = some c') : c'.len = n := by
  unfold Column.push_nulls_to_len at h
  split at h
  · next heq => cases h; simpa [Column.len] using heq
  · split at h
    · next hlt =>
      cases h
      simp [Column.len, bitsAppendUnset]
      omega
    · cases h

/-- Every column surviving the padding pass has exactly the final length. -/
theorem padPass_mem_len (final : Nat) :
    ∀ (cols cols2 : List (String × Column)), padPass final cols = some cols2 →
      ∀ p ∈ cols2, p.2.len = final := by
  intro cols
  induction cols with
  | nil =>
    intro cols2 h p hp
    unfold padPass at h
    cases h
    simp at hp
  | cons hd tl ih =>
    intro cols2 h p hp
    unfold padPass at h
    split at h
    · cases h
    · next c' hc' =>
      cases hp2 : padPass final tl with
      | none => rw [hp2] at h; simp at h
      | some rest2 =>
        rw [hp2] at h
        simp only [Option.map_some'] at h
        cases h
        rcases List.mem_cons.mp hp with hEq | hMem
        · subst hEq
          exact push_nulls_some_len _ _ _ hc'
        · exact ih rest2 hp2 p hMem

/-- After a successful `write_columns`, every column of the chunk has
length `rows-before + batch-row-count`: the padding pass, which a
successful call always runs over the entire column map, forces it. -/
theorem write_columns_ok_uniform (ch : MBChunk) (batch : List EntryColumn)
    (ch2 : MBChunk) (h : ch.write_columns batch = .ok ch2) :
    ∀ p ∈ ch2.columns,
      p.2.len = ch.rows + ((batch.head?.map fun x => x.row_count).getD 0) := by
  unfold MBChunk.write_columns at h
  dsimp only at h
  split at h
  · cases h
  · split at h
    · cases h
    · cases h
    · next cols1 happ =>
      split at h
      · cases h
      · next cols2 hpad =>
        cases h
        intro p hp
        exact padPass_mem_len _ _ _ hpad p hp

/-- The columns of a chunk after a successful `write_table_batch` all
share one length (the snapshot-cache invalidation touches no column). -/
theorem write_table_batch_ok_uniform (ch : MBChunk) (b : TableBatch)
    (ch2 : MBChunk) (h : ch.write_table_batch b = .ok ch2) :
    ∀ p ∈ ch2.columns, ∀ q ∈ ch2.columns, p.2.len = q.2.len := by
  unfold MBChunk.write_table_batch at h
  split at h
  · split at h
    · next ch1 hw =>
      cases h
      intro p hp q hq
      have hu := write_columns_ok_uniform ch b.columns ch1 hw
      rw [hu p hp, hu q hq]
    · cases h
    · cases h
  · cases h

/-- Model of a finite sequence of `write_table_batch` calls that must all
succeed (`none` as soon as one returns an error or panics). -/
def runWrites : MBChunk → List TableBatch → Option MBChunk
  | ch, [] => some ch
  | ch, b :: rest =>
    match ch.write_table_batch b with
    | .ok ch' => runWrites ch' rest
    | _ => none

/-- A chunk reached by `runWrites` is the start chunk or the `ok` result
of some `write_table_batch` call. -/
theorem runWrites_last (bs : List TableBatch) :
    ∀ (ch ch' : MBChunk), runWrites ch bs = some ch' →
      ch' = ch ∨ ∃ (ch0 : MBChunk) (b : TableBatch), ch0.write_table_batch b = .ok ch' := by
  induction bs with
  | nil =>
    intro ch ch' h
    unfold runWrites at h
    cases h
    exact Or.inl rfl
  | cons b rest ih =>
    intro ch ch' h
    unfold runWrites at h
    cases hw : ch.write_table_batch b with
    | ok ch1 =>
      rw [hw] at h
      dsimp only at h
      rcases ih ch1 ch' h with hEq | hEx
      · exact Or.inr ⟨ch, b, hEq ▸ hw⟩
      · exact Or.inr hEx
    | err e chE => rw [hw] at h; cases h
    | panicked => rw [hw] at h; cases h

/-- C3.  After any finite sequence of `write_table_batch` calls that all
succeed, starting from a fresh chunk, every column has the same `len()`
as every other column — the chunk is rectangular. -/
theorem chunk_rectangular (name : String) (bs : List TableBatch) (ch' : MBChunk)
    (h : runWrites (MBChunk.new name) bs = some ch') :
    ∀ p ∈ ch'.columns, ∀ q ∈ ch'.columns, p.2.len = q.2.len := by
  rcases runWrites_last bs _ _ h with hEq | ⟨ch0, b0, hw⟩
  · subst hEq
    intro p hp
    simp [MBChunk.new] at hp
  · exact write_table_batch_ok_uniform ch0 b0 ch' hw

/-- Two single-row single-table batches over different column sets. -/
def c3Batch1 : TableBatch :=
  ⟨"cpu", [⟨"val", .Field, 1, none, .f64vs [F64.ofInt 23]⟩,
    ⟨"time", .Time, 1, none, .i64vs [1]⟩]⟩

/-- A second batch introducing a new column `host`, forcing null padding. -/
def c3Batch2 : TableBatch :=
  ⟨"cpu", [⟨"host", .Tag, 1, none, .strvs ["a"]⟩,
    ⟨"time", .Time, 1, none, .i64vs [2]⟩]⟩

/-- The chunk the two concrete batches produce. -/
def c3Final : MBChunk :=
  (runWrites (MBChunk.new "cpu") [c3Batch1, c3Batch2]).getD (MBChunk.new "cpu")

/-- Witness for C3: after the two concrete batches (which introduce the
new column `host` mid-chunk), all columns of the resulting chunk have
equal lengths. -/
theorem chunk_rectangular_witness :
    runWrites (MBChunk.new "cpu") [c3Batch1, c3Batch2] = some c3Final ∧
      ∀ p ∈ c3Final.columns, ∀ q ∈ c3Final.columns, p.2.len = q.2.len :=
  ⟨by decide, chunk_rectangular "cpu" [c3Batch1, c3Batch2] c3Final (by decide)⟩

/-! Section: Claim theorems about snapshot caching

Pointer identity of `Arc<ChunkSnapshot>` handles is modelled by
allocation identifiers: every snapshot construction allocates a fresh id,
and two live handles are the same pointer exactly when their ids agree. -/

/-- A successful `write_columns` never touches the snapshot cache or the
allocator; only the column map changes. -/
theorem write_columns_ok_fields (ch : MBChunk) (batch : List EntryColumn)
    (ch2 : MBChunk) (h : ch.write_columns batch = .ok ch2) :
    ch2.snapCache = ch.snapCache ∧ ch2.nextSnapId = ch.nextSnapId := by
  unfold MBChunk.write_columns at h
  dsimp only at h
  split at h
  · cases h
  · split at h
    · cases h
    · cases h
    · split at h
      · cases h
      · cases h
        exact ⟨rfl, rfl⟩

/-- A failed `write_columns` never touches the snapshot cache or the
allocator either. -/
theorem write_columns_err_fields (ch : MBChunk) (batch : List EntryColumn)
    (e : ChunkError) (ch2 : MBChunk) (h : ch.write_columns batch = .err e ch2) :
    ch2.snapCache = ch.snapCache ∧ ch2.nextSnapId = ch.nextSnapId := by
  unfold MBChunk.write_columns at h
  dsimp only at h
  split at h
  · cases h
    exact ⟨rfl, rfl⟩
  · split at h
    · cases h
    · cases h
      exact ⟨rfl, rfl⟩
    · split at h
      · cases h
      · cases h

/-- A successful `write_table_batch` clears the snapshot cache as its last
step and leaves the allocator untouched. -/
theorem write_table_batch_ok_fields (ch : MBChunk) (b : TableBatch)
    (ch2 : MBChunk) (h : ch.write_table_batch b = .ok ch2) :
    ch2.snapCache = none ∧ ch2.nextSnapId = ch.nextSnapId := by
  unfold MBChunk.write_table_batch at h
  split at h
  · split at h
    · next ch1 hw =>
      cases h
      exact ⟨rfl, (write_columns_ok_fields ch b.columns ch1 hw).2⟩
    · cases h
    · cases h
  · cases h

/-- A failed `write_table_batch` leaves cache and allocator as they were
(the early return skips the invalidation). -/
theorem write_table_batch_err_fields (ch : MBChunk) (b : TableBatch)
    (e : ChunkError) (ch2 : MBChunk) (h : ch.write_table_batch b = .err e ch2) :
    ch2.snapCache = ch.snapCache ∧ ch2.nextSnapId = ch.nextSnapId := by
  unfold MBChunk.write_table_batch at h
  split at h
  · split at h
    · cases h
    · next ch1 hw =>
      cases h
      exact write_columns_err_fields ch b.columns e ch2 hw
    · cases h
  · cases h

/-- An operation of a chunk trace: one write or one snapshot request. -/
inductive ChunkOp where
  | write (b : TableBatch)
  | snap
deriving Repr

/-- One step of a chunk trace; a snapshot returns its handle id.  A
panicking write aborts the program, so no state after it is observable;
it is modelled as leaving the state unchanged. -/
def chunkStep (ch : MBChunk) : ChunkOp → MBChunk × Option Nat
  | .snap => ((ch.snapshot).2, some (ch.snapshot).1)
  | .write b =>
    match ch.write_table_batch b with
    | .ok ch' => (ch', none)
    | .err _ ch' => (ch', none)
    | .panicked => (ch, none)

/-- Run a trace, collecting every returned snapshot handle. -/
def runOps : MBChunk → List ChunkOp → MBChunk × List Nat
  | ch, [] => (ch, [])
  | ch, op :: rest =>
    let r := chunkStep ch op
    let t := runOps r.1 rest
    (t.1, r.2.toList ++ t.2)

/-- Cache-allocator invariant: a cached handle id was allocated. -/
def snapInv (ch : MBChunk) : Prop :=
  ∀ id, ch.snapCache = some id → id < ch.nextSnapId

/-- Every step preserves `snapInv`, never decreases the allocator, and
returns only handle ids below the new allocator value. -/
theorem chunkStep_inv (ch : MBChunk) (op : ChunkOp) (hinv : snapInv ch) :
    snapInv (chunkStep ch op).1 ∧ ch.nextSnapId ≤ (chunkStep ch op).1.nextSnapId ∧
      ∀ id, (chunkStep ch op).2 = some id → id < (chunkStep ch op).1.nextSnapId := by
  cases op with
  | snap =>
    cases hc : ch.snapCache with
    | some id0 =>
      simp only [chunkStep, MBChunk.snapshot, hc]
      refine ⟨hinv, Nat.le_refl _, ?_⟩
      intro id hid
      cases hid
      exact hinv id0 hc
    | none =>
      simp only [chunkStep, MBChunk.snapshot, hc]
      refine ⟨?_, by simp, ?_⟩
      · intro id hid
        simp at hid ⊢
        omega
      · intro id hid
        cases hid
        simp
  | write b =>
    cases hw : ch.write_table_batch b with
    | ok ch2 =>
      simp only [chunkStep, hw]
      obtain ⟨hc, hn⟩ := write_table_batch_ok_fields ch b ch2 hw
      refine ⟨fun id hid => ?_, by rw [hn], fun id hid => by cases hid⟩
      rw [hc] at hid
      cases hid
    | err e ch2 =>
      simp only [chunkStep, hw]
      obtain ⟨hc, hn⟩ := write_table_batch_err_fields ch b e ch2 hw
      refine ⟨fun id hid => ?_, by rw [hn], fun id hid => by cases hid⟩
      rw [hc] at hid
      rw [hn]
      exact hinv id hid
    | panicked =>
      simp only [chunkStep, hw]
      exact ⟨hinv, Nat.le_refl _, fun id hid => by cases hid⟩

/-- Along a trace from a state satisfying `snapInv`, every returned handle
id stays below the final allocator value, which never decreases, and the
invariant is maintained. -/
theorem runOps_ids_lt (ops : List ChunkOp) :
    ∀ ch : MBChunk, snapInv ch →
      (∀ id ∈ (runOps ch ops).2, id < (runOps ch ops).1.nextSnapId) ∧
        ch.nextSnapId ≤ (runOps ch ops).1.nextSnapId ∧
        snapInv (runOps ch ops).1 := by
  induction ops with
  | nil =>
    intro ch hinv
    exact ⟨fun id hid => by simp [runOps] at hid, Nat.le_refl _, hinv⟩
  | cons op rest ih =>
    intro ch hinv
    obtain ⟨hinv1, hmono1, hids1⟩ := chunkStep_inv ch op hinv
    obtain ⟨hlt, hmono2, hinv2⟩ := ih (chunkStep ch op).1 hinv1
    refine ⟨?_, ?_, ?_⟩
    · intro id hid
      unfold runOps at hid
      dsimp only at hid
      rcases List.mem_append.mp hid with hfst | hrest
      · cases hc : (chunkStep ch op).2 with
        | none => rw [hc] at hfst; simp [Option.toList] at hfst
        | some id0 =>
          rw [hc] at hfst
          simp [Option.toList] at hfst
          subst hfst
          exact Nat.lt_of_lt_of_le (hids1 _ hc) hmono2
      · exact hlt id hrest
    · unfold runOps
      dsimp only
      omega
    · unfold runOps
      dsimp only
      exact hinv2

/-- Lower bound on handles: from a state whose cache only holds ids at
least `n` and whose allocator is at least `n`, every handle a trace
returns is at least `n`. -/
theorem runOps_ids_ge (n : Nat) (ops : List ChunkOp) :
    ∀ ch : MBChunk,
      (∀ id, ch.snapCache = some id → n ≤ id) → n ≤ ch.nextSnapId →
        ∀ id ∈ (runOps ch ops).2, n ≤ id := by
  induction ops with
  | nil =>
    intro ch _ _ id hid
    simp [runOps] at hid
  | cons op rest ih =>
    intro ch hcache halloc id hid
    unfold runOps at hid
    dsimp only at hid
    have hstep : (∀ id0, (chunkStep ch op).1.snapCache = some id0 → n ≤ id0) ∧
        n ≤ (chunkStep ch op).1.nextSnapId ∧
        (∀ id0, (chunkStep ch op).2 = some id0 → n ≤ id0) := by
      cases op with
      | snap =>
        cases hc : ch.snapCache with
        | some id0 =>
          simp only [chunkStep, MBChunk.snapshot, hc]
          refine ⟨fun id1 hid1 => ?_, halloc, ?_⟩
          · cases hid1
            exact hcache _ hc
          · intro id1 hid1
            cases hid1
            exact hcache _ hc
        | none =>
          simp only [chunkStep, MBChunk.snapshot, hc]
          refine ⟨?_, by omega, ?_⟩
          · intro id1 hid1
            simp at hid1 ⊢
            omega
          · intro id1 hid1
            cases hid1
            exact halloc
      | write b =>
        cases hw : ch.write_table_batch b with
        | ok ch2 =>
          simp only [chunkStep, hw]
          obtain ⟨hc, hn⟩ := write_table_batch_ok_fields ch b ch2 hw
          exact ⟨fun id1 hid1 => absurd (hc ▸ hid1) (by simp),
            by rw [hn]; exact halloc, fun id1 hid1 => by cases hid1⟩
        | err e ch2 =>
          simp only [chunkStep, hw]
          obtain ⟨hc, hn⟩ := write_table_batch_err_fields ch b e ch2 hw
          exact ⟨fun id1 hid1 => hcache id1 (hc ▸ hid1),
            by rw [hn]; exact halloc, fun id1 hid1 => by cases hid1⟩
        | panicked =>
          simp only [chunkStep, hw]
          exact ⟨hcache, halloc, fun id1 hid1 => by cases hid1⟩
    rcases List.mem_append.mp hid with hfst | hrest
    · cases hc : (chunkStep ch op).2 with
      | none => rw [hc] at hfst; simp [Option.toList] at hfst
      | some id0 =>
        rw [hc] at hfst
        simp [Option.toList] at hfst
        subst hfst
        exact hstep.2.2 _ hc
    · exact ih (chunkStep ch op).1 hstep.1 hstep.2.1 id hrest

/-- C5.  Two `snapshot()` calls with no intervening write return the same
shared handle; and once a `write_table_batch` succeeds, any handle
returned afterwards differs from every handle returned before that write
(handles returned from traces of the chunk starting at `MBChunk.new`). -/
theorem snapshot_caching (name : String) :
    (∀ ch : MBChunk, ((ch.snapshot).2.snapshot).1 = (ch.snapshot).1) ∧
      (∀ (ops1 : List ChunkOp) (b : TableBatch) (ch2 : MBChunk)
          (ops2 : List ChunkOp),
          (runOps (MBChunk.new name) ops1).1.write_table_batch b = .ok ch2 →
          ∀ id2 ∈ (runOps ch2 ops2).2, ∀ id1 ∈ (runOps (MBChunk.new name) ops1).2,
            id2 ≠ id1) := by
  constructor
  · intro ch
    cases hc : ch.snapCache with
    | some id0 => simp [MBChunk.snapshot, hc]
    | none => simp [MBChunk.snapshot, hc]
  · intro ops1 b ch2 ops2 hw id2 hid2 id1 hid1
    have hinv0 : snapInv (MBChunk.new name) := by
      intro id hid
      simp [MBChunk.new] at hid
    obtain ⟨hlt, _, _⟩ := runOps_ids_lt ops1 (MBChunk.new name) hinv0
    obtain ⟨hc, hn⟩ :=
      write_table_batch_ok_fields (runOps (MBChunk.new name) ops1).1 b ch2 hw
    have hge := runOps_ids_ge (runOps (MBChunk.new name) ops1).1.nextSnapId ops2 ch2
      (fun id0 hid0 => absurd (hc ▸ hid0) (by simp)) (by rw [hn]) id2 hid2
    have := hlt id1 hid1
    omega

/-- The chunk obtained by one snapshot call followed by a successful write
of `c3Batch1`. -/
def c5AfterWrite : MBChunk :=
  match (runOps (MBChunk.new "cpu") [ChunkOp.snap]).1.write_table_batch c3Batch1 with
  | .ok ch => ch
  | _ => MBChunk.new "unreachable"

/-- Witness for C5 on a concrete trace: snapshot, successful write, then
snapshot again — the second handle differs from the first. -/
theorem snapshot_caching_witness :
    (((MBChunk.new "cpu").snapshot).2.snapshot).1 = ((MBChunk.new "cpu").snapshot).1 ∧
      ∀ id2 ∈ (runOps c5AfterWrite [ChunkOp.snap]).2,
        ∀ id1 ∈ (runOps (MBChunk.new "cpu") [ChunkOp.snap]).2, id2 ≠ id1 :=
  ⟨(snapshot_caching "cpu").1 (MBChunk.new "cpu"),
    (snapshot_caching "cpu").2 [ChunkOp.snap] c3Batch1 c5AfterWrite [ChunkOp.snap]
      (by decide)⟩

/-! Section: Claim theorems about the string dictionary -/

theorem firstIdx_cons (y : String) (l : List String) (s : String) :
    firstIdx (y :: l) s = if y = s then some 0 else (firstIdx l s).map (· + 1) := rfl

theorem lookup_value_or_insert_eq (d : StringDictionary) (v : String) :
    d.lookup_value_or_insert v =
      match firstIdx d.storage v with
      | some i => ((i : Int), d)
      | none => ((d.storage.length : Int), ⟨d.storage ++ [v]⟩) := rfl

theorem firstIdx_get (s : String) :
    ∀ (l : List String) (i : Nat), firstIdx l s = some i → l.get? i = some s := by
  intro l
  induction l with
  | nil => intro i h; simp [firstIdx] at h
  | cons x xs ih =>
    intro i h
    unfold firstIdx at h
    by_cases hx : x = s
    · rw [if_pos hx] at h
      cases h
      simp [hx]
    · rw [if_neg hx] at h
      cases hf : firstIdx xs s with
      | none => rw [hf] at h; simp at h
      | some j =>
        rw [hf] at h
        simp at h
        subst h
        simpa using ih j hf

theorem firstIdx_append_left (s : String) :
    ∀ (l1 l2 : List String) (i : Nat), firstIdx l1 s = some i →
      firstIdx (l1 ++ l2) s = some i := by
  intro l1
  induction l1 with
  | nil => intro l2 i h; simp [firstIdx] at h
  | cons x xs ih =>
    intro l2 i h
    rw [firstIdx_cons] at h
    rw [List.cons_append, firstIdx_cons]
    by_cases hx : x = s
    · rw [if_pos hx] at h ⊢
      exact h
    · rw [if_neg hx] at h ⊢
      cases hf : firstIdx xs s with
      | none => rw [hf] at h; simp at h
      | some j =>
        rw [hf] at h
        rw [ih l2 j hf]
        exact h

theorem firstIdx_append_self (s : String) :
    ∀ l : List String, firstIdx l s = none →
      firstIdx (l ++ [s]) s = some l.length := by
  intro l
  induction l with
  | nil => intro _; simp [firstIdx]
  | cons x xs ih =>
    intro h
    rw [firstIdx_cons] at h
    rw [List.cons_append, firstIdx_cons]
    by_cases hx : x = s
    · rw [if_pos hx] at h
      cases h
    · rw [if_neg hx] at h ⊢
      cases hf : firstIdx xs s with
      | some j => rw [hf] at h; simp at h
      | none =>
        rw [ih hf]
        simp

/-- Inserting returns a symbol that is the first storage index of the
string in the post-state. -/
theorem insert_firstIdx (d : StringDictionary) (s : String) :
    ∃ i : Nat, (d.lookup_value_or_insert s).1 = (i : Int) ∧
      firstIdx (d.lookup_value_or_insert s).2.storage s = some i := by
  unfold StringDictionary.lookup_value_or_insert
  cases hf : firstIdx d.storage s with
  | some i => exact ⟨i, rfl, hf⟩
  | none => exact ⟨d.storage.length, rfl, firstIdx_append_self s d.storage hf⟩

/-- Insertion only ever appends to the backing storage. -/
theorem insert_extends (d : StringDictionary) (w : String) :
    ∃ t, (d.lookup_value_or_insert w).2.storage = d.storage ++ t := by
  unfold StringDictionary.lookup_value_or_insert
  cases hf : firstIdx d.storage w with
  | some i => exact ⟨[], by simp⟩
  | none => exact ⟨[w], rfl⟩

/-- Any interleaved sequence of insertions. -/
def insertMany (d : StringDictionary) (ws : List String) : StringDictionary :=
  ws.foldl (fun d w => (d.lookup_value_or_insert w).2) d

theorem insertMany_extends (ws : List String) :
    ∀ d : StringDictionary, ∃ t, (insertMany d ws).storage = d.storage ++ t := by
  induction ws with
  | nil => intro d; exact ⟨[], by simp [insertMany]⟩
  | cons w rest ih =>
    intro d
    obtain ⟨t1, h1⟩ := insert_extends d w
    obtain ⟨t2, h2⟩ := ih (d.lookup_value_or_insert w).2
    refine ⟨t1 ++ t2, ?_⟩
    unfold insertMany at h2 ⊢
    rw [List.foldl_cons, h2, h1, List.append_assoc]

/-- C7.  `lookup_id (lookup_value_or_insert s)` returns `Some(s)`, and a
second insertion of `s` — after arbitrary interleaved insertions — returns
the same symbol as the first. -/
theorem dictionary_round_trip (d : StringDictionary) (s : String)
    (ws : List String) :
    (d.lookup_value_or_insert s).2.lookup_id (d.lookup_value_or_insert s).1 =
        some s ∧
      ((insertMany (d.lookup_value_or_insert s).2 ws).lookup_value_or_insert s).1 =
        (d.lookup_value_or_insert s).1 := by
  obtain ⟨i, h1, h2⟩ := insert_firstIdx d s
  constructor
  · rw [h1]
    unfold StringDictionary.lookup_id
    rw [if_neg (by omega)]
    simpa using firstIdx_get s _ i h2
  · obtain ⟨t, ht⟩ := insertMany_extends ws (d.lookup_value_or_insert s).2
    have hfi : firstIdx (insertMany (d.lookup_value_or_insert s).2 ws).storage s =
        some i := by
      rw [ht]
      exact firstIdx_append_left s _ t i h2
    rw [lookup_value_or_insert_eq, hfi]
    dsimp only
    rw [h1]

/-! Section: Statistics-based pruning (`query/src/pruning.rs`)

The pruning decision of `must_keep` delegates to DataFusion's
`PruningPredicate` (an external dependency).  Its behaviour is modelled
from the spec's decision policy and pinned against the in-source pruning
tests of `pruning.rs`: comparisons are rewritten to min/max bound checks,
missing statistics make a conjunct unknown, conjunction is three-valued,
a chunk is excluded exactly when the conjunction is definitely false, a
schema/literal type incompatibility fails `PruningPredicate::try_new`
(chunk kept), and a referenced column missing from the chunk's schema
fails `prune()` (chunk kept).  Observers only receive notifications and
never influence the result, so they are not modelled. -/

/-- Arrow data types appearing in chunk schemas. -/
inductive PDataType where
  | int64
  | uint64
  | float64
  | boolean
  | utf8
deriving DecidableEq, Repr

/-- Scalar values appearing as statistics bounds or predicate literals. -/
inductive PScalar where
  | i64 (v : Int)
  | u64 (v : Nat)
  | f64 (v : F64)
  | boolv (b : Bool)
  | utf8 (s : String)
deriving DecidableEq, Repr

/-- Model of `data_types::partition_metadata::ColumnSummary` (name + stats). -/
structure ColumnSummary where
  name : String
  stats : Statistics
deriving DecidableEq, Repr

/-- Model of `data_types::partition_metadata::TableSummary`. -/
structure TableSummary where
  name : String
  columns : List ColumnSummary
deriving DecidableEq, Repr

/-- Model of `PrunableStats::column_summary`: first summary with the name. -/
def TableSummary.column_summary (t : TableSummary) (column : String) :
    Option ColumnSummary :=
  t.columns.find? (fun c => c.name = column)

/-- Model of `min_to_scalar` (pruning.rs). -/
def min_to_scalar : Statistics → Option PScalar
  | .i64s v => v.min.map .i64
  | .u64s v => v.min.map .u64
  | .f64s v => v.min.map .f64
  | .bools v => v.min.map .boolv
  | .strs v => v.min.map .utf8

/-- Model of `max_to_scalar` (pruning.rs). -/
def max_to_scalar : Statistics → Option PScalar
  | .i64s v => v.max.map .i64
  | .u64s v => v.max.map .u64
  | .f64s v => v.max.map .f64
  | .bools v => v.max.map .boolv
  | .strs v => v.max.map .utf8

/-- Comparison operators of predicate expressions. -/
inductive CompOp where
  | ltOp
  | ltEqOp
  | gtOp
  | gtEqOp
  | eqOp
deriving DecidableEq, Repr

/-- Modelled from the spec: one conjunct of `query/src/predicate.rs`'s
`Predicate` (that file is not among the sources): a comparison of a column
against a scalar constant. -/
structure ColCompare where
  column : String
  op : CompOp
  literal : PScalar
deriving DecidableEq, Repr

/-- Modelled from the spec: `Predicate` — a conjunction of column
comparisons; `filter_expr()` is `None` exactly when it is empty. -/
structure Predicate where
  exprs : List ColCompare
deriving DecidableEq, Repr

/-- A prunable chunk: the `Prunable` capabilities (summary and schema)
plus a display name as the in-source test chunks carry. -/
structure PrunableChunk where
  name : String
  schema : List (String × PDataType)
  summary : TableSummary
deriving DecidableEq, Repr

/-- Schema lookup. -/
def schemaType (schema : List (String × PDataType)) (col : String) : Option PDataType :=
  match schema with
  | [] => none
  | (n, t) :: rest => if n = col then some t else schemaType rest col

/-- Numeric value of a scalar: DataFusion coerces the numeric types of
stats and literal to a common type; a NaN bound is incomparable. -/
def PScalar.num : PScalar → Option Int
  | .i64 v => some v
  | .u64 v => some (v : Int)
  | .f64 v => if v.isNan then none else some v.val
  | _ => none

/-- Three-valued strict comparison of scalars (`none` = not comparable). -/
def scalarLt (a b : PScalar) : Option Bool :=
  match a, b with
  | .utf8 x, .utf8 y => some (decide (x < y))
  | .boolv x, .boolv y => some (boolLtb x y)
  | _, _ =>
    match a.num, b.num with
    | some x, some y => some (decide (x < y))
    | _, _ => none

/-- Three-valued non-strict comparison of scalars. -/
def scalarLe (a b : PScalar) : Option Bool :=
  (scalarLt b a).map (fun r => !r)

/-- Kleene (three-valued) conjunction: definitely false dominates. -/
def kleeneAnd : Option Bool → Option Bool → Option Bool
  | some false, _ => some false
  | _, some false => some false
  | some true, some true => some true
  | _, _ => none

/-- Does a schema type accept a literal (else `try_new` fails)? -/
def typeCompatible : PDataType → PScalar → Bool
  | .int64, .i64 _ | .int64, .u64 _ | .int64, .f64 _ => true
  | .uint64, .i64 _ | .uint64, .u64 _ | .uint64, .f64 _ => true
  | .float64, .i64 _ | .float64, .u64 _ | .float64, .f64 _ => true
  | .utf8, .utf8 _ => true
  | .boolean, .boolv _ => true
  | _, _ => false

/-- Bound-based three-valued evaluation of one conjunct over a summary:
`col > lit` can only hold if `max(col) > lit`, `col < lit` only if
`min(col) < lit`, equality needs `min ≤ lit ≤ max`; a missing bound gives
`none` (unknown). -/
def evalCompare (sum : TableSummary) (e : ColCompare) : Option Bool :=
  let minv := (sum.column_summary e.column).bind fun c => min_to_scalar c.stats
  let maxv := (sum.column_summary e.column).bind fun c => max_to_scalar c.stats
  match e.op with
  | .gtOp => maxv.bind fun m => scalarLt e.literal m
  | .gtEqOp => maxv.bind fun m => scalarLe e.literal m
  | .ltOp => minv.bind fun m => scalarLt m e.literal
  | .ltEqOp => minv.bind fun m => scalarLe m e.literal
  | .eqOp =>
    kleeneAnd (minv.bind fun m => scalarLe m e.literal)
      (maxv.bind fun m => scalarLe e.literal m)

/-- Model of `must_keep` (pruning.rs): true if the chunk's rows may pass
the filter expression.  Failure to build or evaluate the pruning predicate
keeps the chunk; otherwise it is kept unless the rewritten conjunction is
definitely false. -/
def must_keep (chunk : PrunableChunk) (exprs : List ColCompare) : Bool :=
  if exprs.any fun e =>
      match schemaType chunk.schema e.column with
      | some t => !typeCompatible t e.literal
      | none => false then
    true
  else if exprs.any fun e => (schemaType chunk.schema e.column).isNone then
    true
  else
    match exprs.foldl (fun acc e => kleeneAnd acc (evalCompare chunk.summary e))
        (some true) with
    | some false => false
    | _ => true

/-- Model of `prune_chunks` (pruning.rs): with no filter expression return
every chunk unchanged; else filter by `must_keep`, preserving order. -/
def prune_chunks (chunks : List PrunableChunk) (predicate : Predicate) :
    List PrunableChunk :=
  match predicate.exprs with
  | [] => chunks
  | _ => chunks.filter fun c => must_keep c predicate.exprs

/-- Summary with a single i64 column (`with_i64_column` of the tests). -/
def i64Chunk (name : String) (col : String) (mn mx : Option Int) : PrunableChunk :=
  ⟨name, [(col, .int64)], ⟨name, [⟨col, .i64s ⟨mn, mx, 42⟩⟩]⟩⟩

/-- Chunk with two i64 columns (`with_i64_column` twice). -/
def i64Chunk2 (name : String) (a b c d : Option Int) : PrunableChunk :=
  ⟨name, [("column1", .int64), ("column2", .int64)],
    ⟨name, [⟨"column1", .i64s ⟨a, b, 42⟩⟩, ⟨"column2", .i64s ⟨c, d, 42⟩⟩]⟩⟩

/-- The predicate `column1 > 100`. -/
def gt100 : Predicate := ⟨[⟨"column1", .gtOp, .i64 100⟩]⟩

/-- The model reproduces `test_pruned_null` of pruning.rs: under
`column1 > 100`, bounds `[Null,10]` prune, `[0,Null]`, `[Null,Null]` and
absent statistics keep. -/
theorem pruning_matches_source_test_null :
    (prune_chunks
        [i64Chunk "chunk1" "column1" none (some 10),
          i64Chunk "chunk2" "column1" (some 0) none,
          i64Chunk "chunk3" "column1" none none,
          ⟨"chunk4", [("column1", .int64)], ⟨"chunk4", []⟩⟩] gt100).map
      (fun c => c.name) = ["chunk2", "chunk3", "chunk4"] := by
  decide

/-- The model reproduces `test_pruned_multi_chunk` of pruning.rs. -/
theorem pruning_matches_source_test_multi_chunk :
    (prune_chunks
        [i64Chunk "chunk1" "column1" (some 0) (some 10),
          i64Chunk "chunk2" "column1" (some 0) (some 1000),
          i64Chunk "chunk3" "column1" (some 10) (some 20),
          i64Chunk "chunk4" "column1" none none,
          i64Chunk "chunk5" "column1" (some 10) none,
          i64Chunk "chunk6" "column1" none (some 20)] gt100).map
      (fun c => c.name) = ["chunk2", "chunk4", "chunk5"] := by
  decide

/-- The predicate `column1 > 100 AND column2 < 5`. -/
def c4Pred : Predicate :=
  ⟨[⟨"column1", .gtOp, .i64 100⟩, ⟨"column2", .ltOp, .i64 5⟩]⟩

/-- The chunk of `test_pruned_multi_column`'s `c5`: `column1` bounded by
`[0,10]`, `column2` in the schema but with no statistics at all. -/
def c4Chunk5 : PrunableChunk :=
  ⟨"chunk5", [("column1", .int64), ("column2", .int64)],
    ⟨"chunk5", [⟨"column1", .i64s ⟨some 0, some 10, 42⟩⟩]⟩⟩

/-- The model reproduces `test_pruned_multi_column` of pruning.rs,
including the case its comments flag as a DataFusion bug: `chunk5` is
pruned although statistics for the referenced `column2` are missing. -/
theorem pruning_matches_source_test_multi_column :
    (prune_chunks
        [i64Chunk2 "chunk1" (some 0) (some 1000) (some 0) (some 4),
          i64Chunk2 "chunk2" (some 0) (some 10) (some 0) (some 4),
          i64Chunk2 "chunk3" (some 0) (some 10) (some 5) (some 10),
          i64Chunk2 "chunk4" (some 1000) (some 2000) (some 0) (some 4),
          c4Chunk5,
          ⟨"chunk6", [("column1", .int64), ("column2", .int64)],
            ⟨"chunk6", [⟨"column2", .i64s ⟨some 0, some 4, 42⟩⟩]⟩⟩] c4Pred).map
      (fun c => c.name) = ["chunk1", "chunk4", "chunk6"] := by
  decide

/-- C4 failing input.  Under `column1 > 100 AND column2 < 5`, the chunk
whose summary lacks any statistics for the referenced `column2` is
nevertheless excluded from `prune_chunks`'s output (its `column1` bound
`[0,10]` decides the conjunction), although the spec requires a chunk
with missing statistics for a referenced column to be kept.  This is the
behaviour the source pins in `test_pruned_multi_column` and flags as a
DataFusion bug. -/
theorem prune_chunks_drops_chunk_with_missing_stats :
    c4Chunk5.summary.column_summary "column2" = none ∧
      prune_chunks [c4Chunk5] c4Pred = [] := by
  decide

/-- C8.  `prune_chunks` under `column1 > 100` over three chunks with
`column1` ranges `[0,10]`, `[0,1000]` and no statistics at all keeps the
second and third chunks in input order and excludes only the first. -/
theorem prune_chunks_scenario4 :
    prune_chunks
        [i64Chunk "chunk1" "column1" (some 0) (some 10),
          i64Chunk "chunk2" "column1" (some 0) (some 1000),
          ⟨"chunk3", [("column1", .int64)], ⟨"chunk3", []⟩⟩] gt100 =
      [i64Chunk "chunk2" "column1" (some 0) (some 1000),
        ⟨"chunk3", [("column1", .int64)], ⟨"chunk3", []⟩⟩] := by
  decide

end Iox
